import Mathlib

/-!
Verification of the table-extraction / cleaning / normalization core of the
`cdf-warn` WARN-notice scraping repository.

The Python source is shallowly embedded:
* a pandas `DataFrame` whose cells are strings-or-null becomes `DF`
  (`cols : List String`, `rows : List (List Cell)` with `Cell := Option String`,
  `none` standing for `NaN`/`None`);
* the cleaning pipeline `drop_empty_rows_cols` (src/modules/datatodf.py) is
  translated step by step, one Lean `let` per pandas call;
* the extractors `excel`, `pdf`, `html`, `html_pandas` (src/modules/datatodf.py)
  are embedded over already-acquired documents: the external parsing libraries
  (openpyxl, camelot, lxml, pandas.read_html) are black boxes whose output
  (worksheet grids, per-page table grids, table elements with their header
  cells and rows) is the input of the embedded function, exactly the data the
  Python code reads from them;
* Python-level behaviour (dict insertion/overwrite order, `str()` of `None`,
  truncating `zip`, list slice assignment, exceptions) is embedded explicitly,
  with fallible code in `Except String`.
-/

namespace CdfWarn

/-- A pandas cell holding either a proper value or a null (`NaN`/`None`). -/
abbrev Cell := Option String

/-- Python `str(x)` on a cell: `str(None)` is the string `"None"`. -/
def pyStr : Cell → String
  | none => "None"
  | some s => s

/-- The whitespace characters recognized by Python's no-argument `str.split`
(restricted to ASCII, which is all the source's header names use). -/
def pyIsSpace (c : Char) : Bool :=
  c = ' ' || c = '\t' || c = '\n' || c = '\x0b' || c = '\x0c' || c = '\r'

/-- Python's no-argument `str.split`: the maximal whitespace-free tokens, in
order (`cur` accumulates the current token, reversed). -/
def pySplitWsAux (cur : List Char) : List Char → List (List Char)
  | [] => if cur.isEmpty then [] else [cur.reverse]
  | c :: cs =>
      if pyIsSpace c then
        if cur.isEmpty then pySplitWsAux [] cs
        else cur.reverse :: pySplitWsAux [] cs
      else pySplitWsAux (c :: cur) cs

/-- `whitespace_to_singlespace` (src/modules/utils.py):
`" ".join(str(s).split())` — collapse every run of whitespace to a single
space and strip the ends.  The argument is already a string here; callers
that pass cells go through `pyStr` first. -/
def whitespace_to_singlespace (s : String) : String :=
  " ".intercalate ((pySplitWsAux [] s.data).map (fun t => String.mk t))

/-- A pandas `DataFrame` of string-or-null cells: the Raw Table of the spec. -/
structure DF where
  cols : List String
  rows : List (List Cell)
deriving Repr, DecidableEq

/-- A rectangular table: every row has one cell per column.  pandas
`DataFrame`s are rectangular by construction. -/
def DF.Rect (T : DF) : Prop := ∀ r ∈ T.rows, r.length = T.cols.length

instance (T : DF) : Decidable T.Rect := by
  unfold DF.Rect; infer_instance

theorem DF.ext2 (a b : DF) (h1 : a.cols = b.cols) (h2 : a.rows = b.rows) :
    a = b := by
  cases a; cases b; cases h1; cases h2; rfl

/-- `pd.isna` on a cell. -/
def isNA : Cell → Bool
  | none => true
  | some _ => false

/-- `fillna("")` on one cell: nulls become the empty string. -/
def fillCell (c : Cell) : Cell := some (c.getD "")

/-- Select the entries of `xs` at the positions where the boolean mask is
`true` — pandas selection by a boolean vector (`df.loc[:, mask]`, `df[mask]`). -/
def keepByMask (m : List Bool) (xs : List α) : List α :=
  ((m.zip xs).filter (fun q => q.1)).map (fun q => q.2)

/-- Pointwise disjunction of two boolean vectors. -/
def zipOr (a b : List Bool) : List Bool := List.zipWith or a b

/-- Column-wise `any`: entry `j` is `true` iff some row has a cell satisfying
`p` in column `j`.  This is pandas `df.apply(p).any(axis=0)`; `n` is the
column count (needed when `rows` is empty). -/
def colAnyVec (p : Cell → Bool) (n : Nat) (rows : List (List Cell)) : List Bool :=
  rows.foldr (fun r acc => zipOr (r.map p) acc) (List.replicate n false)

/-- `drop_empty_rows_cols` (src/modules/datatodf.py, lines 314–326),
one `let` per pandas statement:
```
df.dropna(axis=0, how='all', inplace=True)
df.dropna(axis=1, how='all', inplace=True)
df = df.fillna("")
df = df.loc[:, df.ne("").any()]
df = df[(df.T != "").any()]
```
-/
def drop_empty_rows_cols (T : DF) : DF :=
  let n := T.cols.length
  -- df.dropna(axis=0, how='all'): drop the rows whose cells are all null
  let rows1 := T.rows.filter (fun r => !(r.all isNA))
  -- df.dropna(axis=1, how='all'): keep the columns having some non-null cell
  let mask2 := colAnyVec (fun c => !(isNA c)) n rows1
  let cols2 := keepByMask mask2 T.cols
  let rows2 := rows1.map (keepByMask mask2)
  -- df.fillna(""): remaining nulls become empty strings
  let rows3 := rows2.map (fun r => r.map fillCell)
  -- df.loc[:, df.ne("").any()]: keep the columns having some cell ≠ ""
  let mask4 := colAnyVec (fun c => c != some "") cols2.length rows3
  let cols4 := keepByMask mask4 cols2
  let rows4 := rows3.map (keepByMask mask4)
  -- df[(df.T != "").any()]: keep the rows having some cell ≠ ""
  let rows5 := rows4.filter (fun r => r.any (fun c => c != some ""))
  ⟨cols4, rows5⟩

/-! Spec-side vocabulary for the Cleaner claims: a cell is *non-empty* when it
is neither null nor the empty string; the spec's description of the Cleaner is
written out as `cleanedSpec` and compared with the embedded pipeline. -/

/-- A cell that is neither null nor the empty string. -/
def nonEmptyCell (c : Cell) : Bool := !(isNA c) && (c != some "")

/-- A row containing at least one non-empty cell. -/
def rowNonEmpty (r : List Cell) : Bool := r.any nonEmptyCell

/-- Mask of the columns of `T` containing at least one non-empty cell. -/
def colNonEmptyMask (T : DF) : List Bool :=
  colAnyVec nonEmptyCell T.cols.length T.rows

/-- The Cleaner as the spec words it: keep exactly the rows and columns that
contain some cell that is neither null nor the empty string, leaving the kept
non-null values unchanged and filling kept nulls with `""`. -/
def cleanedSpec (T : DF) : DF :=
  ⟨keepByMask (colNonEmptyMask T) T.cols,
   (T.rows.filter rowNonEmpty).map
     (fun r => (keepByMask (colNonEmptyMask T) r).map fillCell)⟩

/-! ### Generic lemmas about masks and column vectors -/

theorem keepByMask_nil_left (xs : List α) : keepByMask [] xs = [] := rfl

theorem keepByMask_nil_right (m : List Bool) : keepByMask m ([] : List α) = [] := by
  cases m <;> rfl

theorem keepByMask_cons (b : Bool) (m : List Bool) (x : α) (xs : List α) :
    keepByMask (b :: m) (x :: xs)
      = if b then x :: keepByMask m xs else keepByMask m xs := by
  unfold keepByMask
  cases b <;> simp [List.zip_cons_cons, List.filter_cons]

theorem keepByMask_length : ∀ (m : List Bool) (xs : List α),
    xs.length = m.length →
    (keepByMask m xs).length = m.countP (fun b => b)
  | [], xs, _ => by simp [keepByMask_nil_left, List.countP_nil]
  | _ :: _, [], h => by simp at h
  | b :: m, x :: xs, h => by
      have hl : xs.length = m.length := by simpa using h
      cases b <;>
        simp [keepByMask_cons, List.countP_cons, keepByMask_length m xs hl]

theorem keepByMask_map (f : α → β) : ∀ (m : List Bool) (xs : List α),
    keepByMask m (xs.map f) = (keepByMask m xs).map f
  | [], xs => by simp [keepByMask_nil_left]
  | m, [] => by simp [keepByMask_nil_right]
  | b :: m, x :: xs => by
      cases b <;> simp [keepByMask_cons, keepByMask_map f m xs]

theorem keepByMask_replicate (a : α) : ∀ (m : List Bool),
    keepByMask m (List.replicate m.length a)
      = List.replicate (m.countP (fun b => b)) a
  | [] => rfl
  | b :: m => by
      cases b <;>
        simp [List.replicate_succ, keepByMask_cons, List.countP_cons,
          keepByMask_replicate a m]

theorem keepByMask_zipOr : ∀ (m a b : List Bool),
    a.length = m.length → b.length = m.length →
    keepByMask m (zipOr a b) = zipOr (keepByMask m a) (keepByMask m b)
  | [], a, b, ha, hb => by
      have ha0 : a = [] := List.length_eq_zero.mp (by simpa using ha)
      have hb0 : b = [] := List.length_eq_zero.mp (by simpa using hb)
      subst ha0; subst hb0; rfl
  | t :: m, [], b, ha, hb => by simp at ha
  | t :: m, a0 :: a, [], ha, hb => by simp at hb
  | t :: m, a0 :: a, b0 :: b, ha, hb => by
      have ha' : a.length = m.length := by simpa using ha
      have hb' : b.length = m.length := by simpa using hb
      have ih := keepByMask_zipOr m a b ha' hb'
      simp only [zipOr] at ih ⊢
      cases t <;> simp [List.zipWith_cons_cons, keepByMask_cons, ih]

theorem zipOr_replicate_false {n : Nat} : ∀ (v : List Bool), v.length = n →
    zipOr (List.replicate n false) v = v := by
  induction n with
  | zero => intro v hv; rw [List.length_eq_zero] at hv; subst hv; rfl
  | succ k ih =>
      intro v hv
      cases v with
      | nil => simp at hv
      | cons b v =>
          have hv' : v.length = k := by simpa using hv
          have ih2 := ih v hv'
          simp only [zipOr] at ih2 ⊢
          simp [List.replicate_succ, List.zipWith_cons_cons, ih2]

theorem colAnyVec_cons (p : Cell → Bool) (n : Nat) (r : List Cell)
    (rs : List (List Cell)) :
    colAnyVec p n (r :: rs) = zipOr (r.map p) (colAnyVec p n rs) := rfl

theorem colAnyVec_length (p : Cell → Bool) (n : Nat) :
    ∀ (rows : List (List Cell)), (∀ r ∈ rows, r.length = n) →
    (colAnyVec p n rows).length = n
  | [], _ => by simp [colAnyVec]
  | r :: rs, h => by
      have h1 : r.length = n := h r (List.mem_cons_self r rs)
      have h2 : (colAnyVec p n rs).length = n :=
        colAnyVec_length p n rs (fun x hx => h x (List.mem_cons_of_mem r hx))
      rw [colAnyVec_cons]
      simp only [zipOr, List.length_zipWith, List.length_map, h1, h2]
      omega

theorem colAnyVec_map_inner (p : Cell → Bool) (f : Cell → Cell) (n : Nat) :
    ∀ (rows : List (List Cell)),
    colAnyVec p n (rows.map (fun r => r.map f))
      = colAnyVec (fun c => p (f c)) n rows
  | [] => rfl
  | r :: rs => by
      simp only [List.map_cons, colAnyVec_cons, List.map_map]
      rw [colAnyVec_map_inner p f n rs]
      rfl

theorem colAnyVec_keep (p : Cell → Bool) : ∀ (m : List Bool)
    (rows : List (List Cell)), (∀ r ∈ rows, r.length = m.length) →
    colAnyVec p (m.countP (fun b => b)) (rows.map (keepByMask m))
      = keepByMask m (colAnyVec p m.length rows)
  | m, [], _ => by
      simpa [colAnyVec] using (keepByMask_replicate false m).symm
  | m, r :: rs, h => by
      have h1 : r.length = m.length := h r (List.mem_cons_self r rs)
      have hrs : ∀ x ∈ rs, x.length = m.length :=
        fun x hx => h x (List.mem_cons_of_mem r hx)
      have hlen : (colAnyVec p m.length rs).length = m.length :=
        colAnyVec_length p m.length rs hrs
      have hmap : (r.map p).length = m.length := by simpa using h1
      simp only [List.map_cons, colAnyVec_cons]
      rw [keepByMask_zipOr m (r.map p) (colAnyVec p m.length rs) hmap hlen,
        ← keepByMask_map p m r, ← colAnyVec_keep p m rs hrs]

theorem colAnyVec_filter (p : Cell → Bool) (q : List Cell → Bool) (n : Nat) :
    ∀ (rows : List (List Cell)), (∀ r ∈ rows, r.length = n) →
    (∀ r ∈ rows, q r = false → ∀ c ∈ r, p c = false) →
    colAnyVec p n (rows.filter q) = colAnyVec p n rows
  | [], _, _ => rfl
  | r :: rs, hlen, hq => by
      have h1 : r.length = n := hlen r (List.mem_cons_self r rs)
      have hrs : ∀ x ∈ rs, x.length = n :=
        fun x hx => hlen x (List.mem_cons_of_mem r hx)
      have hqrs : ∀ x ∈ rs, q x = false → ∀ c ∈ x, p c = false :=
        fun x hx => hq x (List.mem_cons_of_mem r hx)
      have ih := colAnyVec_filter p q n rs hrs hqrs
      by_cases hr : q r = true
      · simp [List.filter_cons, hr, colAnyVec_cons, ih]
      · have hr' : q r = false := by simpa using hr
        have hmap : r.map p = List.replicate n false := by
          apply List.eq_replicate_iff.mpr
          refine ⟨by simpa using h1, ?_⟩
          intro b hb
          rcases List.mem_map.mp hb with ⟨c, hc, hcb⟩
          rw [← hcb]
          exact hq r (List.mem_cons_self r rs) hr' c hc
        have hzlen : (colAnyVec p n rs).length = n := colAnyVec_length p n rs hrs
        simp [List.filter_cons, hr', colAnyVec_cons, ih, hmap,
          zipOr_replicate_false _ hzlen]

/-- Pointwise implication of boolean vectors: every `true` of the second
vector sits under a `true` of the first. -/
def BImp (a b : List Bool) : Prop :=
  List.Forall₂ (fun x y => y = true → x = true) a b

theorem bimp_replicate_false (n : Nat) :
    BImp (List.replicate n false) (List.replicate n false) := by
  induction n with
  | zero => exact List.Forall₂.nil
  | succ k ih =>
      simp only [List.replicate_succ]
      exact List.Forall₂.cons (fun h => h) ih

theorem bimp_zipOr : ∀ {u v a b : List Bool}, BImp u v → BImp a b →
    BImp (zipOr u a) (zipOr v b) := by
  intro u v a b h1
  induction h1 generalizing a b with
  | nil => intro _; exact List.Forall₂.nil
  | @cons x y u v hxy _ ih =>
      intro h2
      cases h2 with
      | nil => exact List.Forall₂.nil
      | @cons a0 b0 a b hab htl =>
          simp only [zipOr, List.zipWith_cons_cons]
          refine List.Forall₂.cons ?_ (ih htl)
          intro hor
          rcases Bool.or_eq_true_iff.mp hor with hy | hb0
          · exact Bool.or_eq_true_iff.mpr (Or.inl (hxy hy))
          · exact Bool.or_eq_true_iff.mpr (Or.inr (hab hb0))

theorem bimp_map (p q : Cell → Bool) (hpq : ∀ c, q c = true → p c = true) :
    ∀ (r : List Cell), BImp (r.map p) (r.map q)
  | [] => List.Forall₂.nil
  | c :: r => List.Forall₂.cons (hpq c) (bimp_map p q hpq r)

theorem bimp_colAnyVec (p q : Cell → Bool) (n : Nat)
    (hpq : ∀ c, q c = true → p c = true) :
    ∀ (rows : List (List Cell)),
    BImp (colAnyVec p n rows) (colAnyVec q n rows)
  | [] => bimp_replicate_false n
  | r :: rs => by
      rw [colAnyVec_cons, colAnyVec_cons]
      exact bimp_zipOr (bimp_map p q hpq r) (bimp_colAnyVec p q n hpq rs)

theorem zipAnd_of_bimp : ∀ {a b : List Bool}, BImp a b →
    List.zipWith and a b = b := by
  intro a b h
  induction h with
  | nil => rfl
  | @cons x y a b hxy _ ih =>
      simp only [List.zipWith_cons_cons, ih]
      cases y with
      | true => simp [hxy rfl]
      | false => simp

theorem keepByMask_keepByMask : ∀ (m b : List Bool) (xs : List α),
    b.length = m.length → xs.length = m.length →
    keepByMask (keepByMask m b) (keepByMask m xs)
      = keepByMask (List.zipWith and m b) xs
  | [], b, xs, hb, hx => by
      have hb0 : b = [] := List.length_eq_zero.mp (by simpa using hb)
      have hx0 : xs = [] := List.length_eq_zero.mp (by simpa using hx)
      subst hb0; subst hx0; rfl
  | t :: m, [], xs, hb, hx => by simp at hb
  | t :: m, b0 :: b, [], hb, hx => by simp at hx
  | t :: m, b0 :: b, x :: xs, hb, hx => by
      have hb' : b.length = m.length := by simpa using hb
      have hx' : xs.length = m.length := by simpa using hx
      have ih := keepByMask_keepByMask m b xs hb' hx'
      cases t with
      | true =>
          cases b0 <;>
            simp [keepByMask_cons, List.zipWith_cons_cons, ih]
      | false =>
          simp [keepByMask_cons, List.zipWith_cons_cons, ih]

theorem keepByMask_self : ∀ (m : List Bool),
    keepByMask m m = List.replicate (m.countP (fun b => b)) true
  | [] => rfl
  | b :: m => by
      cases b <;>
        simp [keepByMask_cons, List.countP_cons, keepByMask_self m,
          List.replicate_succ]

theorem keepByMask_replicate_true {n : Nat} : ∀ (xs : List α),
    xs.length = n → keepByMask (List.replicate n true) xs = xs := by
  induction n with
  | zero =>
      intro xs hx
      have : xs = [] := List.length_eq_zero.mp hx
      subst this; rfl
  | succ k ih =>
      intro xs hx
      cases xs with
      | nil => simp at hx
      | cons x xs =>
          have : xs.length = k := by simpa using hx
          simp [List.replicate_succ, keepByMask_cons, ih xs this]

theorem mem_of_mem_keepByMask {a : α} : ∀ {m : List Bool} {xs : List α},
    a ∈ keepByMask m xs → a ∈ xs
  | [], xs, h => by simp [keepByMask_nil_left] at h
  | b :: m, [], h => by simp [keepByMask_nil_right] at h
  | b :: m, x :: xs, h => by
      rw [keepByMask_cons] at h
      cases b with
      | true =>
          rw [if_pos rfl] at h
          rcases List.mem_cons.mp h with h1 | h2
          · exact h1 ▸ List.mem_cons_self x xs
          · exact List.mem_cons_of_mem x (mem_of_mem_keepByMask h2)
      | false =>
          rw [if_neg (by decide)] at h
          exact List.mem_cons_of_mem x (mem_of_mem_keepByMask h)

theorem get_mem_keepByMask : ∀ (m : List Bool) (xs : List α) (j : Nat)
    (h1 : j < m.length) (h2 : j < xs.length),
    m.get ⟨j, h1⟩ = true → xs.get ⟨j, h2⟩ ∈ keepByMask m xs
  | [], _, j, h1, _, _ => by simp at h1
  | b :: m, [], j, _, h2, _ => by simp at h2
  | b :: m, x :: xs, 0, h1, h2, hm => by
      simp only [List.get] at hm ⊢
      subst hm
      simp [keepByMask_cons]
  | b :: m, x :: xs, j + 1, h1, h2, hm => by
      have h1' : j < m.length := by simpa using h1
      have h2' : j < xs.length := by simpa using h2
      have hm' : m.get ⟨j, h1'⟩ = true := by simpa using hm
      have ih := get_mem_keepByMask m xs j h1' h2' hm'
      simp only [List.get_eq_getElem] at ih ⊢
      simp only [List.getElem_cons_succ]
      rw [keepByMask_cons]
      cases b with
      | false => rw [if_neg (by decide)]; exact ih
      | true => rw [if_pos rfl]; exact List.mem_cons_of_mem x ih

theorem getD_replicate_of_lt {a d : α} : ∀ {n j : Nat}, j < n →
    (List.replicate n a).getD j d = a
  | n + 1, 0, _ => rfl
  | n + 1, j + 1, h => by
      simp only [List.replicate_succ, List.getD_cons_succ]
      exact getD_replicate_of_lt (by omega)

theorem zipOr_getD : ∀ (a b : List Bool) (j : Nat), j < a.length →
    j < b.length →
    (zipOr a b).getD j false = (a.getD j false || b.getD j false)
  | [], _, j, ha, _ => by simp at ha
  | a0 :: a, [], j, _, hb => by simp at hb
  | a0 :: a, b0 :: b, 0, _, _ => rfl
  | a0 :: a, b0 :: b, j + 1, ha, hb => by
      simp only [zipOr, List.zipWith_cons_cons, List.getD_cons_succ]
      exact zipOr_getD a b j (by simpa using ha) (by simpa using hb)

theorem getD_map (f : α → β) (d : β) (e : α) : ∀ (xs : List α) (j : Nat),
    j < xs.length → (xs.map f).getD j d = f (xs.getD j e)
  | [], j, h => by simp at h
  | x :: xs, 0, _ => rfl
  | x :: xs, j + 1, h => by
      simp only [List.map_cons, List.getD_cons_succ]
      exact getD_map f d e xs j (by simpa using h)

theorem getD_eq_get : ∀ (xs : List α) (j : Nat) (h : j < xs.length) (d : α),
    xs.getD j d = xs.get ⟨j, h⟩
  | x :: xs, 0, _, _ => rfl
  | x :: xs, j + 1, h, d => by
      simp only [List.getD_cons_succ, List.get]
      exact getD_eq_get xs j (by simpa using h) d

theorem colAnyVec_getD (p : Cell → Bool) (n : Nat) (j : Nat) (hj : j < n) :
    ∀ (rows : List (List Cell)), (∀ r ∈ rows, r.length = n) →
    (colAnyVec p n rows).getD j false
      = rows.any (fun r => p (r.getD j none))
  | [], _ => by
      simp [colAnyVec, getD_replicate_of_lt hj]
  | r :: rs, h => by
      have h1 : r.length = n := h r (List.mem_cons_self r rs)
      have hrs : ∀ x ∈ rs, x.length = n :=
        fun x hx => h x (List.mem_cons_of_mem r hx)
      have hlen : (colAnyVec p n rs).length = n := colAnyVec_length p n rs hrs
      rw [colAnyVec_cons,
        zipOr_getD (r.map p) (colAnyVec p n rs) j (by simp [h1, hj]) (by omega),
        getD_map p false none r j (by omega),
        colAnyVec_getD p n j hj rs hrs]
      simp

/-! ### Cell-level facts -/

theorem fill_ne_empty (c : Cell) : ((fillCell c) != some "") = nonEmptyCell c := by
  cases c <;> simp [fillCell, nonEmptyCell, isNA]

theorem nonEmpty_fill (c : Cell) : nonEmptyCell (fillCell c) = nonEmptyCell c := by
  cases c <;> simp [fillCell, nonEmptyCell, isNA]

theorem nonEmpty_imp_nonNA (c : Cell) (h : nonEmptyCell c = true) :
    (!(isNA c)) = true := by
  cases c
  · simp [nonEmptyCell, isNA] at h
  · simp [isNA]

theorem filter_of_map (f : α → β) (p : β → Bool) : ∀ (l : List α),
    (l.map f).filter p = (l.filter (fun a => p (f a))).map f
  | [] => rfl
  | a :: l => by
      by_cases h : p (f a) = true
      · simp [List.filter_cons, h, filter_of_map f p l]
      · have h' : p (f a) = false := by simpa using h
        simp [List.filter_cons, h', filter_of_map f p l]

/-- The combined row test performed by the cleaning pipeline (not all-null,
and some kept-and-filled cell differs from `""`) agrees with the spec's
"row contains a non-empty cell" on every row of a rectangular table. -/
theorem row_filter_pointwise (rows : List (List Cell)) (n : Nat)
    (hT : ∀ r ∈ rows, r.length = n) (r : List Cell) (hr : r ∈ rows) :
    (!(r.all isNA)
      && ((keepByMask (colAnyVec nonEmptyCell n rows) (r.map fillCell)).any
            (fun c => c != some "")))
      = rowNonEmpty r := by
  have hrlen : r.length = n := hT r hr
  have hNElen : (colAnyVec nonEmptyCell n rows).length = n :=
    colAnyVec_length nonEmptyCell n rows hT
  cases hne : rowNonEmpty r with
  | true =>
      rcases List.any_eq_true.mp hne with ⟨c, hc, hcne⟩
      rcases List.mem_iff_get.mp hc with ⟨⟨j, hj⟩, hcj⟩
      have hjn : j < n := by omega
      have hgetD : (colAnyVec nonEmptyCell n rows).getD j false
          = rows.any (fun r2 => nonEmptyCell (r2.getD j none)) :=
        colAnyVec_getD nonEmptyCell n j hjn rows hT
      have hwit : rows.any (fun r2 => nonEmptyCell (r2.getD j none)) = true :=
        List.any_eq_true.mpr
          ⟨r, hr, by rw [getD_eq_get r j hj, hcj]; exact hcne⟩
      have hjNE : j < (colAnyVec nonEmptyCell n rows).length := by omega
      have hgettrue : (colAnyVec nonEmptyCell n rows).get ⟨j, hjNE⟩ = true := by
        rw [← getD_eq_get _ j hjNE false, hgetD]; exact hwit
      have hjmap : j < (r.map fillCell).length := by simpa using hj
      have hmem := get_mem_keepByMask _ (r.map fillCell) j hjNE hjmap hgettrue
      have hcj2 : r[j] = c := by
        rw [← List.get_eq_getElem r ⟨j, hj⟩]; exact hcj
      have hgetmap : (r.map fillCell).get ⟨j, hjmap⟩ = fillCell c := by
        simp only [List.get_eq_getElem, List.getElem_map, hcj2]
      have hany : ((keepByMask (colAnyVec nonEmptyCell n rows) (r.map fillCell)).any
            (fun c2 => c2 != some "")) = true :=
        List.any_eq_true.mpr
          ⟨fillCell c, by rw [← hgetmap]; exact hmem,
            by rw [fill_ne_empty]; exact hcne⟩
      have hallNA : r.all isNA = false := by
        cases hall : r.all isNA with
        | false => rfl
        | true =>
            have hna := List.all_eq_true.mp hall c hc
            simp [nonEmptyCell, hna] at hcne
      rw [hallNA, hany]
      rfl
  | false =>
      have hnone : ∀ c ∈ r, nonEmptyCell c = false := by
        intro c hc
        cases hcc : nonEmptyCell c with
        | false => rfl
        | true =>
            have : rowNonEmpty r = true := List.any_eq_true.mpr ⟨c, hc, hcc⟩
            rw [this] at hne; exact absurd hne (by simp)
      have hany : ((keepByMask (colAnyVec nonEmptyCell n rows) (r.map fillCell)).any
            (fun c2 => c2 != some "")) = false := by
        cases hA : ((keepByMask (colAnyVec nonEmptyCell n rows) (r.map fillCell)).any
            (fun c2 => c2 != some "")) with
        | false => rfl
        | true =>
            rcases List.any_eq_true.mp hA with ⟨a, ha, hane⟩
            have ha2 : a ∈ r.map fillCell := mem_of_mem_keepByMask ha
            rcases List.mem_map.mp ha2 with ⟨c, hc, rfl⟩
            rw [fill_ne_empty, hnone c hc] at hane
            exact absurd hane (by simp)
      rw [hany]
      simp

/-- The cleaning pipeline computes exactly the spec's description: it keeps
the rows and columns containing a non-empty cell and fills the remaining
nulls with `""`. -/
theorem drop_empty_eq_cleanedSpec (T : DF) (hT : T.Rect) :
    drop_empty_rows_cols T = cleanedSpec T := by
  obtain ⟨cols, rows⟩ := T
  simp only [DF.Rect] at hT
  simp only [drop_empty_rows_cols, cleanedSpec, colNonEmptyMask]
  set n := cols.length with hn
  set rows1 := rows.filter (fun r => !(r.all isNA)) with hrows1
  set mask2 := colAnyVec (fun c => !(isNA c)) n rows1 with hmask2def
  set maskNE := colAnyVec nonEmptyCell n rows with hmaskNEdef
  have hRect1 : ∀ r ∈ rows1, r.length = n := by
    intro r hr
    exact hT r (List.mem_of_mem_filter hr)
  have hdroppedNA : ∀ r ∈ rows, (fun r => !(r.all isNA)) r = false →
      ∀ c ∈ r, (fun c => !(isNA c)) c = false := by
    intro r _ hq c hc
    have hall : r.all isNA = true := by simpa using hq
    simp [List.all_eq_true.mp hall c hc]
  have hdroppedNE : ∀ r ∈ rows, (fun r => !(r.all isNA)) r = false →
      ∀ c ∈ r, nonEmptyCell c = false := by
    intro r _ hq c hc
    have hall : r.all isNA = true := by simpa using hq
    simp [nonEmptyCell, List.all_eq_true.mp hall c hc]
  have hmask2 : mask2 = colAnyVec (fun c => !(isNA c)) n rows := by
    rw [hmask2def, hrows1]
    exact colAnyVec_filter _ _ n rows hT hdroppedNA
  have hm2len : mask2.length = n := colAnyVec_length _ n rows1 hRect1
  have hNElen : maskNE.length = n := colAnyVec_length _ n rows hT
  have hbimp : BImp mask2 maskNE := by
    rw [hmask2, hmaskNEdef]
    exact bimp_colAnyVec _ _ n nonEmpty_imp_nonNA rows
  have hand : List.zipWith and mask2 maskNE = maskNE := zipAnd_of_bimp hbimp
  have hfillswap : ∀ r : List Cell,
      (keepByMask mask2 r).map fillCell = keepByMask mask2 (r.map fillCell) :=
    fun r => (keepByMask_map fillCell mask2 r).symm
  have hrect1f : ∀ r ∈ rows1.map (fun r => r.map fillCell),
      r.length = mask2.length := by
    intro r hr
    rcases List.mem_map.mp hr with ⟨r0, hr0, rfl⟩
    simp [hRect1 r0 hr0, hm2len]
  -- the column mask of the fourth step, rewritten over the original table
  set mask4 := colAnyVec (fun c => c != some "") (keepByMask mask2 cols).length
      ((rows1.map (keepByMask mask2)).map (fun r => r.map fillCell)) with hmask4def
  have hmask4 : mask4 = keepByMask mask2 maskNE := by
    rw [hmask4def]
    have hswap : (rows1.map (keepByMask mask2)).map (fun r => r.map fillCell)
        = (rows1.map (fun r => r.map fillCell)).map (keepByMask mask2) := by
      simp only [List.map_map]
      exact List.map_congr_left (fun r _ => by
        simp only [Function.comp]
        exact hfillswap r)
    have hclen : (keepByMask mask2 cols).length = mask2.countP (fun b => b) :=
      keepByMask_length mask2 cols (by omega)
    rw [hswap, hclen,
      colAnyVec_keep _ mask2 (rows1.map (fun r => r.map fillCell)) hrect1f]
    congr 1
    rw [hm2len, colAnyVec_map_inner]
    have hfe : (fun c => (fillCell c) != some "") = nonEmptyCell :=
      funext fill_ne_empty
    rw [hfe, hrows1, colAnyVec_filter _ _ n rows hT hdroppedNE]
  -- assemble the two components
  have hcols : keepByMask mask4 (keepByMask mask2 cols)
      = keepByMask maskNE cols := by
    rw [hmask4, keepByMask_keepByMask mask2 maskNE cols (by omega) (by omega),
      hand]
  have hrowfun : ∀ r ∈ rows1,
      keepByMask mask4 ((keepByMask mask2 r).map fillCell)
      = keepByMask maskNE (r.map fillCell) := by
    intro r hr
    rw [hmask4, hfillswap r,
      keepByMask_keepByMask mask2 maskNE (r.map fillCell) (by omega)
        (by simp [hRect1 r hr, hm2len]),
      hand]
  refine congrArg₂ DF.mk hcols ?_
  -- rows: fold the two filters into the single spec-side filter
  have hinner : List.map (keepByMask mask4)
        ((rows1.map (keepByMask mask2)).map (fun r => r.map fillCell))
      = rows1.map (fun r => keepByMask maskNE (r.map fillCell)) := by
    simp only [List.map_map]
    exact List.map_congr_left (fun r hr => by
      simp only [Function.comp]
      exact hrowfun r hr)
  rw [hinner, filter_of_map, hrows1, List.filter_filter]
  have hfc : rows.filter
        (fun a => (keepByMask maskNE (a.map fillCell)).any (fun c => c != some "")
          && !(a.all isNA))
      = rows.filter rowNonEmpty := by
    apply List.filter_congr
    intro r hr
    rw [Bool.and_comm]
    exact row_filter_pointwise rows n hT r hr
  rw [hfc]
  exact List.map_congr_left (fun r _ => keepByMask_map fillCell maskNE r)

theorem fill_fill (c : Cell) : fillCell (fillCell c) = fillCell c := by
  cases c <;> rfl

/-- A row of a rectangular table containing a non-empty cell still contains a
non-empty cell after the non-empty columns are selected. -/
theorem keep_any_nonEmpty (rows : List (List Cell)) (n : Nat)
    (hT : ∀ r ∈ rows, r.length = n) (r : List Cell) (hr : r ∈ rows)
    (hne : rowNonEmpty r = true) :
    (keepByMask (colAnyVec nonEmptyCell n rows) r).any nonEmptyCell = true := by
  have hrlen : r.length = n := hT r hr
  have hNElen : (colAnyVec nonEmptyCell n rows).length = n :=
    colAnyVec_length nonEmptyCell n rows hT
  rcases List.any_eq_true.mp hne with ⟨c, hc, hcne⟩
  rcases List.mem_iff_get.mp hc with ⟨⟨j, hj⟩, hcj⟩
  have hjn : j < n := by omega
  have hjNE : j < (colAnyVec nonEmptyCell n rows).length := by omega
  have hgettrue : (colAnyVec nonEmptyCell n rows).get ⟨j, hjNE⟩ = true := by
    rw [← getD_eq_get _ j hjNE false,
      colAnyVec_getD nonEmptyCell n j hjn rows hT]
    exact List.any_eq_true.mpr
      ⟨r, hr, by rw [getD_eq_get r j hj, hcj]; exact hcne⟩
  exact List.any_eq_true.mpr
    ⟨r.get ⟨j, hj⟩, get_mem_keepByMask _ r j hjNE hj hgettrue,
      by rw [hcj]; exact hcne⟩

theorem cleanedSpec_rect (T : DF) (hT : T.Rect) : (cleanedSpec T).Rect := by
  intro r hr
  rcases List.mem_map.mp hr with ⟨r0, hr0, rfl⟩
  have hr0mem : r0 ∈ T.rows := List.mem_of_mem_filter hr0
  have hNElen : (colNonEmptyMask T).length = T.cols.length :=
    colAnyVec_length nonEmptyCell _ T.rows hT
  simp only [cleanedSpec, List.length_map]
  rw [keepByMask_length _ r0 (by rw [hNElen]; exact hT r0 hr0mem),
    keepByMask_length _ T.cols (by omega)]

theorem cleanedSpec_rows_nonEmpty (T : DF) (hT : T.Rect) :
    ∀ r ∈ (cleanedSpec T).rows, rowNonEmpty r = true := by
  intro r hr
  rcases List.mem_map.mp hr with ⟨r0, hr0, rfl⟩
  have hr0mem : r0 ∈ T.rows := List.mem_of_mem_filter hr0
  have hr0ne : rowNonEmpty r0 = true := List.of_mem_filter hr0
  have h1 := keep_any_nonEmpty T.rows T.cols.length hT r0 hr0mem hr0ne
  rw [rowNonEmpty, List.any_map]
  have hcomp : (nonEmptyCell ∘ fillCell) = nonEmptyCell := funext nonEmpty_fill
  rw [hcomp]
  exact h1

theorem colNonEmptyMask_cleanedSpec (T : DF) (hT : T.Rect) :
    colNonEmptyMask (cleanedSpec T)
      = List.replicate ((cleanedSpec T).cols.length) true := by
  obtain ⟨cols, rows⟩ := T
  simp only [DF.Rect] at hT
  set n := cols.length with hn
  set maskNE := colAnyVec nonEmptyCell n rows with hmaskNEdef
  have hNElen : maskNE.length = n := colAnyVec_length nonEmptyCell n rows hT
  have hswap : (rows.filter rowNonEmpty).map
        (fun r => (keepByMask maskNE r).map fillCell)
      = ((rows.filter rowNonEmpty).map (fun r => r.map fillCell)).map
          (keepByMask maskNE) := by
    simp only [List.map_map]
    exact List.map_congr_left (fun r _ => by
      simp only [Function.comp]
      exact (keepByMask_map fillCell maskNE r).symm)
  have hrectf : ∀ r ∈ (rows.filter rowNonEmpty).map (fun r => r.map fillCell),
      r.length = maskNE.length := by
    intro r hr
    rcases List.mem_map.mp hr with ⟨r0, hr0, rfl⟩
    simp [hT r0 (List.mem_of_mem_filter hr0), hNElen]
  have hcolslen : (keepByMask maskNE cols).length = maskNE.countP (fun b => b) :=
    keepByMask_length maskNE cols (by omega)
  simp only [colNonEmptyMask, cleanedSpec]
  rw [hswap, hcolslen,
    colAnyVec_keep nonEmptyCell maskNE _ hrectf, hNElen,
    colAnyVec_map_inner]
  have hcomp : (fun c => nonEmptyCell (fillCell c)) = nonEmptyCell :=
    funext nonEmpty_fill
  have hdropped : ∀ r ∈ rows, rowNonEmpty r = false →
      ∀ c ∈ r, nonEmptyCell c = false := by
    intro r _ hq c hc
    cases hcc : nonEmptyCell c with
    | false => rfl
    | true =>
        have hany : rowNonEmpty r = true := List.any_eq_true.mpr ⟨c, hc, hcc⟩
        rw [hq] at hany
        exact hany.symm
  rw [hcomp, colAnyVec_filter _ _ n rows hT hdropped, ← hmaskNEdef,
    keepByMask_self]

theorem cleanedSpec_fixed (T : DF) (hT : T.Rect) :
    cleanedSpec (cleanedSpec T) = cleanedSpec T := by
  have hrect : (cleanedSpec T).Rect := cleanedSpec_rect T hT
  have hmask : colNonEmptyMask (cleanedSpec T)
      = List.replicate ((cleanedSpec T).cols.length) true :=
    colNonEmptyMask_cleanedSpec T hT
  have hfilter : (cleanedSpec T).rows.filter rowNonEmpty = (cleanedSpec T).rows :=
    List.filter_eq_self.mpr (fun r hr => cleanedSpec_rows_nonEmpty T hT r hr)
  have hrowsid : ∀ r ∈ (cleanedSpec T).rows,
      (keepByMask (colNonEmptyMask (cleanedSpec T)) r).map fillCell = r := by
    intro r hr
    rw [hmask, keepByMask_replicate_true r (hrect r hr)]
    rcases List.mem_map.mp hr with ⟨r0, _, rfl⟩
    rw [List.map_map]
    have hff : (fillCell ∘ fillCell) = fillCell := funext fill_fill
    rw [hff]
  apply DF.ext2
  · show keepByMask (colNonEmptyMask (cleanedSpec T)) (cleanedSpec T).cols
        = (cleanedSpec T).cols
    rw [hmask]
    exact keepByMask_replicate_true _ rfl
  · show ((cleanedSpec T).rows.filter rowNonEmpty).map
        (fun r => (keepByMask (colNonEmptyMask (cleanedSpec T)) r).map fillCell)
        = (cleanedSpec T).rows
    rw [hfilter]
    conv_rhs => rw [← List.map_id (cleanedSpec T).rows]
    exact List.map_congr_left hrowsid

/-- C1: the Cleaner is idempotent — for every rectangular Raw Table `T`,
applying `drop_empty_rows_cols` twice gives the same table as applying it
once. -/
theorem cleaner_idempotent (T : DF) (hT : T.Rect) :
    drop_empty_rows_cols (drop_empty_rows_cols T) = drop_empty_rows_cols T := by
  rw [drop_empty_eq_cleanedSpec T hT,
    drop_empty_eq_cleanedSpec (cleanedSpec T) (cleanedSpec_rect T hT),
    cleanedSpec_fixed T hT]

theorem cleaner_idempotent_witness :
    (DF.Rect ⟨["a", "b"], [[none, some "x"], [some "", none]]⟩)
    ∧ drop_empty_rows_cols
        (drop_empty_rows_cols ⟨["a", "b"], [[none, some "x"], [some "", none]]⟩)
      = drop_empty_rows_cols ⟨["a", "b"], [[none, some "x"], [some "", none]]⟩ :=
  ⟨by decide,
    cleaner_idempotent ⟨["a", "b"], [[none, some "x"], [some "", none]]⟩
      (by decide)⟩

/-- C2: the Cleaner removes exactly the all-empty rows and columns — the
result equals the spec-side `cleanedSpec` (rows and columns with some cell
neither null nor `""` are retained in order, with non-null values unchanged
and nulls filled with `""`), and every row and every column of the result
contains a non-empty cell. -/
theorem cleaner_removes_exactly_empty (T : DF) (hT : T.Rect) :
    drop_empty_rows_cols T = cleanedSpec T
    ∧ (∀ r ∈ (drop_empty_rows_cols T).rows, rowNonEmpty r = true)
    ∧ (∀ j, j < (drop_empty_rows_cols T).cols.length →
        (drop_empty_rows_cols T).rows.any
          (fun r => nonEmptyCell (r.getD j none)) = true) := by
  have hch := drop_empty_eq_cleanedSpec T hT
  refine ⟨hch, ?_, ?_⟩
  · rw [hch]
    exact cleanedSpec_rows_nonEmpty T hT
  · rw [hch]
    intro j hj
    have hrect := cleanedSpec_rect T hT
    have hgd := colAnyVec_getD nonEmptyCell (cleanedSpec T).cols.length j hj
        (cleanedSpec T).rows hrect
    rw [← hgd]
    have hre : (colNonEmptyMask (cleanedSpec T)).getD j false = true := by
      rw [colNonEmptyMask_cleanedSpec T hT]
      exact getD_replicate_of_lt hj
    exact hre

theorem cleaner_removes_exactly_empty_witness :
    drop_empty_rows_cols
        (⟨["a", "b", "c"],
          [[none, some "x", some ""], [some "", none, none],
            [some "y", some "", none]]⟩ : DF)
      = cleanedSpec
        ⟨["a", "b", "c"],
          [[none, some "x", some ""], [some "", none, none],
            [some "y", some "", none]]⟩ :=
  (cleaner_removes_exactly_empty _ (by decide)).1

/-! ### `to_bool` (src/modules/utils.py, lines 34–45)

The Python function first takes `str(x).lower()`; the embedding receives the
`str(x)` string and applies `pyLower` for `.lower()` (ASCII lowercasing,
which is all the configuration values the source meets use).  The branch for
`['', 'nan', 'none']` returns `None` without a warning and the final branch
returns `None` with a warning; both return `None`. -/

/-- Python `str.lower()` on ASCII text. -/
def pyLowerChar (c : Char) : Char :=
  if 65 ≤ c.toNat ∧ c.toNat ≤ 90 then Char.ofNat (c.toNat + 32) else c

def pyLower (s : String) : String := ⟨s.data.map pyLowerChar⟩

def to_bool (x : String) : Option Bool :=
  let s := pyLower x
  if s ∈ ["yes", "y", "true", "t"] then some true
  else if s ∈ ["no", "n", "false", "f"] then some false
  else if s ∈ ["", "nan", "none"] then none
  else none

/-- C10: `to_bool` is total (by construction) and returns `some true` exactly
on the lowercased truthy strings, `some false` exactly on the lowercased
falsy strings, and `none` on everything else — including `""`, `"nan"` and
`"none"`. -/
theorem to_bool_total_spec (x : String) :
    (to_bool x = some true ↔ pyLower x ∈ ["yes", "y", "true", "t"])
    ∧ (to_bool x = some false ↔ pyLower x ∈ ["no", "n", "false", "f"])
    ∧ (to_bool x = none ↔
        (pyLower x ∉ ["yes", "y", "true", "t"]
          ∧ pyLower x ∉ ["no", "n", "false", "f"]))
    ∧ to_bool "" = none ∧ to_bool "nan" = none ∧ to_bool "none" = none := by
  refine ⟨?_, ?_, ?_, by decide, by decide, by decide⟩ <;>
    · simp only [to_bool]
      split_ifs with h1 h2 h3 <;>
        (try simp_all) <;>
        (rcases h1 with h | h | h | h <;> rw [h] <;> decide)

theorem to_bool_total_spec_witness :
    to_bool "Yes" = some true ∧ to_bool "F" = some false
    ∧ to_bool "maybe" = none :=
  ⟨(to_bool_total_spec "Yes").1.mpr (by decide),
    (to_bool_total_spec "F").2.1.mpr (by decide),
    (to_bool_total_spec "maybe").2.2.1.mpr (by decide)⟩

/-! ### Python dictionaries

A Python `dict` is embedded as an association list with unique keys,
maintained by insert-or-overwrite: inserting an existing key updates the
value in place (keeping the key's original position), inserting a fresh key
appends it.  This reproduces Python's insertion-order semantics. -/

def pyDictUpdate (d : List (String × α)) (k : String) (v : α) :
    List (String × α) :=
  if d.any (fun kv => kv.1 == k) then
    d.map (fun kv => if kv.1 == k then (k, v) else kv)
  else d ++ [(k, v)]

def pyDictOfPairs (ps : List (String × α)) : List (String × α) :=
  ps.foldl (fun d kv => pyDictUpdate d kv.1 kv.2) []

def pyDictKeys (d : List (String × α)) : List String := d.map (fun kv => kv.1)

/-- Python `k in d`. -/
def pyDictHasKey (d : List (String × α)) (k : String) : Bool :=
  d.any (fun kv => kv.1 == k)

/-- Python `d[k]` as an `Option` (`none` would be a `KeyError`). -/
def pyDictGet (d : List (String × α)) (k : String) : Option α :=
  (d.find? (fun kv => kv.1 == k)).map (fun kv => kv.2)

/-! ### The Field Normalizer

`get_normalized_fields` lives in `modules/items.py`, which is not part of the
source tree here (only its import and call sites in
src/modules/spiders/base.py line 138 are). -/

/-- Modelled from the spec: `get_normalized_fields` (`modules/items.py`,
absent from the source tree) — "for a Raw Table row and a Source
Configuration's raw→canonical mapping, produce a Normalized Record: for each
mapping entry whose raw name exists in the row, copy the value under the
canonical name; raw names absent from the row are silently skipped (no
error)".  The mapping `m` is `StateConfig.FIELDS`: entries
`(canonical, raw)`. -/
def get_normalized_fields (m : List (String × String))
    (row : List (String × α)) : List (String × α) :=
  m.foldl
    (fun acc kv =>
      match pyDictGet row kv.2 with
      | some v => pyDictUpdate acc kv.1 v
      | none => acc)
    []

/-- `StateConfig.__init__` field-mapping construction (src/config.py,
lines 106–108):
`{(re.sub("_field", '', key)).upper(): value for key, value in row.items() if key.endswith("_field")}`.
`re.sub` replaces every occurrence of the literal `"_field"`, and `.upper()`
is ASCII uppercasing here. -/
def pyUpperChar (c : Char) : Char :=
  if 97 ≤ c.toNat ∧ c.toNat ≤ 122 then Char.ofNat (c.toNat - 32) else c

def pyUpper (s : String) : String := ⟨s.data.map pyUpperChar⟩

/-- Python `str.endswith`. -/
def pyEndsWith (s suf : String) : Bool := suf.data.isSuffixOf s.data

/-- Left-to-right non-overlapping replacement of `pat` by `repl`, the
semantics of `re.sub` with a literal pattern (and of `str.replace`).  The
fuel argument (instantiated with the string length, an upper bound on the
number of steps) only makes the recursion structural. -/
def replaceAllAux (pat repl : List Char) : Nat → List Char → List Char
  | _, [] => []
  | 0, l => l
  | fuel + 1, c :: cs =>
      if pat ≠ [] ∧ pat.isPrefixOf (c :: cs) then
        repl ++ replaceAllAux pat repl fuel (List.drop (pat.length - 1) cs)
      else c :: replaceAllAux pat repl fuel cs

def pyReplaceAll (s pat repl : String) : String :=
  ⟨replaceAllAux pat.data repl.data s.data.length s.data⟩

def StateConfig.mkFields (row : List (String × String)) :
    List (String × String) :=
  pyDictOfPairs
    ((row.filter (fun kv => pyEndsWith kv.1 "_field")).map
      (fun kv => (pyUpper (pyReplaceAll kv.1 "_field" ""), kv.2)))

/-! Key-tracking lemmas for the Normalizer. -/

theorem pyDictKeys_update (d : List (String × α)) (k : String) (v : α) :
    ∀ x ∈ pyDictKeys (pyDictUpdate d k v), x ∈ pyDictKeys d ∨ x = k := by
  intro x hx
  unfold pyDictUpdate at hx
  by_cases hmem : d.any (fun kv => kv.1 == k) = true
  · rw [if_pos hmem] at hx
    rcases List.mem_map.mp hx with ⟨kv, hkv, rfl⟩
    rcases List.mem_map.mp hkv with ⟨kv0, hkv0, rfl⟩
    by_cases he : (kv0.1 == k) = true
    · right
      show ((if (kv0.1 == k) = true then (k, v) else kv0).1 : String) = k
      rw [if_pos he]
    · left
      show ((if (kv0.1 == k) = true then (k, v) else kv0).1 : String) ∈ pyDictKeys d
      rw [if_neg he]
      exact List.mem_map.mpr ⟨kv0, hkv0, rfl⟩
  · rw [if_neg hmem] at hx
    simp only [pyDictKeys, List.map_append, List.map_cons, List.map_nil] at hx
    rcases List.mem_append.mp hx with h | h
    · exact Or.inl h
    · right
      simpa using h

theorem get_normalized_fields_keys_aux (row : List (String × α)) :
    ∀ (m : List (String × String)) (acc : List (String × α)),
    ∀ k ∈ pyDictKeys (m.foldl
        (fun acc kv =>
          match pyDictGet row kv.2 with
          | some v => pyDictUpdate acc kv.1 v
          | none => acc) acc),
      k ∈ pyDictKeys acc
        ∨ ∃ raw, (k, raw) ∈ m ∧ pyDictHasKey row raw = true
  | [], acc, k, hk => Or.inl hk
  | kv :: m, acc, k, hk => by
      rw [List.foldl_cons] at hk
      cases hfind : pyDictGet row kv.2 with
      | none =>
          rw [hfind] at hk
          rcases get_normalized_fields_keys_aux row m acc k hk with h | ⟨raw, h1, h2⟩
          · exact Or.inl h
          · exact Or.inr ⟨raw, List.mem_cons_of_mem kv h1, h2⟩
      | some v =>
          rw [hfind] at hk
          rcases get_normalized_fields_keys_aux row m (pyDictUpdate acc kv.1 v) k hk
            with h | ⟨raw, h1, h2⟩
          · rcases pyDictKeys_update acc kv.1 v k h with h0 | rfl
            · exact Or.inl h0
            · refine Or.inr ⟨kv.2, List.mem_cons_self kv m, ?_⟩
              unfold pyDictGet at hfind
              unfold pyDictHasKey
              rcases hf : List.find? (fun kv2 => kv2.1 == kv.2) row with _ | kv2
              · rw [hf] at hfind
                simp at hfind
              · have hp := List.find?_some hf
                exact List.any_eq_true.mpr ⟨kv2, List.mem_of_find?_eq_some hf, hp⟩
          · exact Or.inr ⟨raw, List.mem_cons_of_mem kv h1, h2⟩

theorem get_normalized_fields_keys_subset (m : List (String × String))
    (row : List (String × α)) :
    ∀ k ∈ pyDictKeys (get_normalized_fields m row), k ∈ pyDictKeys m := by
  intro k hk
  rcases get_normalized_fields_keys_aux row m [] k hk with h | ⟨raw, h1, _⟩
  · simp [pyDictKeys] at h
  · exact List.mem_map.mpr ⟨(k, raw), h1, rfl⟩

/-- C3: every key of the Normalized Record produced from a Raw Table row and
the field mapping built by `StateConfig` from the `*_field` configuration
columns belongs to the mapping's canonical vocabulary. -/
theorem normalized_keys_subset_canonical (cfgRow : List (String × String))
    (row : List (String × Cell)) (k : String)
    (hk : k ∈ pyDictKeys
      (get_normalized_fields (StateConfig.mkFields cfgRow) row)) :
    k ∈ pyDictKeys (StateConfig.mkFields cfgRow) :=
  get_normalized_fields_keys_subset (StateConfig.mkFields cfgRow) row k hk

theorem normalized_keys_subset_canonical_witness :
    "COMPANY" ∈ pyDictKeys
      (StateConfig.mkFields
        [("state_name", "Alabama"), ("company_field", "Company Name"),
          ("date_field", "Notice Date")]) :=
  normalized_keys_subset_canonical
    [("state_name", "Alabama"), ("company_field", "Company Name"),
      ("date_field", "Notice Date")]
    [("Company Name", some "Acme Corp")] "COMPANY" (by decide)

/-- C4: a mapping entry whose raw name is absent from the row is silently
skipped — the Normalized Record does not contain the corresponding canonical
key at all (the mapping is a Python dict, so its canonical keys are
distinct). -/
theorem normalizer_skips_missing_raw (m : List (String × String))
    (row : List (String × Cell)) (canon raw : String)
    (hnd : (pyDictKeys m).Nodup) (hm : (canon, raw) ∈ m)
    (habsent : pyDictHasKey row raw = false) :
    pyDictHasKey (get_normalized_fields m row) canon = false := by
  cases hk : pyDictHasKey (get_normalized_fields m row) canon with
  | false => rfl
  | true =>
      exfalso
      have hmem : canon ∈ pyDictKeys (get_normalized_fields m row) := by
        unfold pyDictHasKey at hk
        rcases List.any_eq_true.mp hk with ⟨kv, hkv, hbeq⟩
        have hkc : kv.1 = canon := by simpa using hbeq
        exact hkc ▸ List.mem_map.mpr ⟨kv, hkv, rfl⟩
      rcases get_normalized_fields_keys_aux row m [] canon hmem
        with h | ⟨raw2, h1, h2⟩
      · simp [pyDictKeys] at h
      · have heq : (canon, raw2) = (canon, raw) :=
          List.inj_on_of_nodup_map hnd h1 hm rfl
        have hr : raw2 = raw := congrArg Prod.snd heq
        rw [hr, habsent] at h2
        exact absurd h2 (by simp)

theorem normalizer_skips_missing_raw_witness :
    pyDictHasKey
      (get_normalized_fields [("COMPANY", "Company Name"), ("DATE", "Notice Date")]
        [("Company Name", (some "Acme Corp" : Cell))]) "DATE" = false :=
  normalizer_skips_missing_raw
    [("COMPANY", "Company Name"), ("DATE", "Notice Date")]
    [("Company Name", some "Acme Corp")] "DATE" "Notice Date"
    (by decide) (by decide) (by decide)

/-! ### Spreadsheet extraction: `excel` (src/modules/datatodf.py, lines 30–101)

A workbook is the data openpyxl hands the function: a list of worksheets,
each carrying its name, its cell grid (`ws.values`, `none` for an empty
cell) and the hyperlink target of every cell (`none` when the cell has no
hyperlink).  openpyxl's `ws.max_row` is the number of grid rows and
`ws.min_row` is `1`; `pd.DataFrame(ws.values)` pads ragged rows with nulls
to the widest row.  Python exceptions are `Except.error`. -/

structure Worksheet where
  name : String
  grid : List (List Cell)
  links : List (List (Option String))
deriving Repr, DecidableEq

def gridWidth (g : List (List Cell)) : Nat := (g.map List.length).foldr max 0

def padRow (n : Nat) (r : List Cell) : List Cell :=
  r ++ List.replicate (n - r.length) none

/-- `pd.DataFrame(ws.values)`: the grid padded to rectangular shape. -/
def wsDF (ws : Worksheet) : List (List Cell) :=
  ws.grid.map (padRow (gridWidth ws.grid))

/-- The ground truth openpyxl holds: the hyperlink target of the cell at
1-based `row`/`column`, `none` when the cell has no hyperlink. -/
def hyperlinkTarget (ws : Worksheet) (row col : Nat) : Option String :=
  (ws.links.getD (row - 1) []).getD (col - 1) none

/-- The hyperlink lookup exactly as the source writes it:
`ws.cell(row=row_index, col=col).hyperlink.target`.  openpyxl's
`Worksheet.cell` has keyword parameters `row` and `column` — there is no
`col` keyword — so this call raises `TypeError` before reading any cell,
whatever the worksheet and indices are. -/
def cellWithColKwarg (ws : Worksheet) (rowIndex col : Nat) :
    Except String String :=
  .error "TypeError: cell got an unexpected keyword argument col"

/-- Python `range(a, b)` (for the natural-number uses of the source). -/
def pyRange (a b : Nat) : List Nat := (List.range (b - a)).map (fun k => a + k)

/-- First-occurrence deduplication (the order pandas keeps when forming the
union of two column sets). -/
def dedupFirstAux (seen : List String) : List String → List String
  | [] => []
  | c :: cs =>
      if seen.contains c then dedupFirstAux seen cs
      else c :: dedupFirstAux (c :: seen) cs

/-- `DataFrame.append` (also `pd.concat` of two frames): appending to the
fresh empty frame returns the other frame; otherwise rows are stacked with
columns aligned by name, missing entries null. -/
def pyAppend (a b : DF) : DF :=
  if a.cols.isEmpty && a.rows.isEmpty then b
  else
    let extra := dedupFirstAux [] (b.cols.filter (fun c => !(a.cols.contains c)))
    let cols := a.cols ++ extra
    let arows := a.rows.map (fun r => r ++ List.replicate extra.length (none : Cell))
    let brows := b.rows.map (fun r =>
      cols.map (fun c =>
        match b.cols.findIdx? (fun c2 => c2 == c) with
        | some i => r.getD i none
        | none => none))
    ⟨cols, arows ++ brows⟩

/-- `df[name] = values` on a DataFrame: overwrite the column when the name
exists, append a new column otherwise. -/
def dfSetCol (d : DF) (name : String) (vals : List Cell) : DF :=
  if d.cols.contains name then
    ⟨d.cols,
      (d.rows.zip vals).map (fun p =>
        (d.cols.zip p.1).map (fun cv => if cv.1 == name then p.2 else cv.2))⟩
  else ⟨d.cols ++ [name], (d.rows.zip vals).map (fun p => p.1 ++ [p.2])⟩

/-- The per-worksheet body of `excel`'s worksheet loop. -/
def excelSheet (linkCols : List Nat) (skipHeader dropFooter : Nat)
    (ws : Worksheet) : Except String DF :=
  let grid := wsDF ws
  let maxRow := ws.grid.length
  -- columns = df.iloc[skip_header].to_list(); whitespace_to_singlespace each
  if hlt : skipHeader < grid.length then
    let columns := (grid.get ⟨skipHeader, hlt⟩).map
      (fun c => whitespace_to_singlespace (pyStr c))
    -- df = df.drop(header_rows + footer_rows): labels range(0, skip_header+1)
    -- and range(max_row - drop_footer, max_row); a negative footer label is
    -- missing from the index and raises KeyError
    if dropFooter > maxRow then .error "KeyError"
    else
      let dfRows := (grid.enum.filter
        (fun p => skipHeader < p.1 ∧ p.1 < maxRow - dropFooter)).map
          (fun p => p.2)
      let df0 : DF := ⟨columns, dfRows⟩
      -- if link_col: extract hyperlink columns (an int link_col is wrapped
      -- into a singleton list by the source; [] plays Python-falsy None)
      if linkCols.isEmpty then .ok df0
      else
        linkCols.foldlM (fun (df : DF) col =>
          if hcol : col < columns.length then
            let colName := columns.get ⟨col, hcol⟩
            -- `if not col_name: col_name = col` makes col_name an int and
            -- `col_name + ' Link'` a TypeError
            if colName = "" then .error "TypeError"
            else
              let name := colName ++ " Link"
              -- for row_index in range(ws.min_row + skip_header,
              --                        ws.max_row - drop_footer):
              --   try: links[row_index] = ws.cell(row=row_index, col=col)
              --                             .hyperlink.target
              --   except Exception: links[row_index] = ''
              let linkVals := (pyRange (1 + skipHeader) (maxRow - dropFooter)).map
                (fun ri =>
                  match cellWithColKwarg ws ri col with
                  | .ok t => t
                  | .error _ => "")
              -- df[name] = pd.Series(links).values
              if linkVals.length = df.rows.length then
                .ok (dfSetCol df name (linkVals.map (fun v => some v)))
              else .error "ValueError"
          else .error "IndexError") df0
  else .error "IndexError"

/-- `excel` (src/modules/datatodf.py): `None` defaults become `0`, the
worksheets to parse are all of them or the named subset (`wb[name]`,
`KeyError` when missing), each worksheet's frame is appended to the running
frame. -/
def excel (wb : List Worksheet) (linkCols : List Nat)
    (skipHeader dropFooter : Option Nat) (sheetsToUse : Option (List String)) :
    Except String DF := do
  let sh := skipHeader.getD 0
  let dfo := dropFooter.getD 0
  let worksheets ← match sheetsToUse with
    | none => .ok wb
    | some names => names.mapM (fun nm =>
        match wb.find? (fun ws => ws.name == nm) with
        | some ws => .ok ws
        | none => .error "KeyError")
  let dfs ← worksheets.mapM (excelSheet linkCols sh dfo)
  .ok (dfs.foldl pyAppend ⟨[], []⟩)

instance {ε α : Type _} [DecidableEq ε] [DecidableEq α] :
    DecidableEq (Except ε α) := fun a b =>
  match a, b with
  | .error e, .error f =>
      if h : e = f then .isTrue (by rw [h])
      else .isFalse (fun hh => by cases hh; exact h rfl)
  | .error _, .ok _ => .isFalse (fun hh => by cases hh)
  | .ok _, .error _ => .isFalse (fun hh => by cases hh)
  | .ok x, .ok y =>
      if h : x = y then .isTrue (by rw [h])
      else .isFalse (fun hh => by cases hh; exact h rfl)

/-- C6 (amended): a single-worksheet spreadsheet with 5 rows extracted with
`skip_header=1, drop_footer=1` yields exactly 2 data rows — the `skip_header`
row before the column-name row, the column-name row itself, and the trailing
footer row are excluded (5 − 3 = 2, not 3 as the spec example says). -/
theorem excel_five_rows_two_data_rows (ws : Worksheet)
    (h5 : ws.grid.length = 5) :
    (excel [ws] [] (some 1) (some 1) none).map (fun d => d.rows.length)
      = .ok 2 := by
  rcases ws with ⟨nm, grid, links⟩
  simp only at h5
  rcases grid with _ | ⟨a, _ | ⟨b, _ | ⟨c, _ | ⟨d, _ | ⟨e, rest⟩⟩⟩⟩⟩ <;>
    simp at h5
  subst h5
  rfl

theorem excel_five_rows_two_data_rows_witness :
    (excel
        [⟨"Sheet1",
          [[some "junk", none],
            [some "Company", some "Date"],
            [some "Acme", some "2020-01-01"],
            [some "Beta", some "2020-02-02"],
            [some "Total: 2", none]],
          [[], [], [], [], []]⟩]
        [] (some 1) (some 1) none).map (fun d => d.rows.length)
      = .ok 2 :=
  excel_five_rows_two_data_rows _ (by decide)

/-- C6 as stated is false: this concrete 5-row single-worksheet spreadsheet
extracted with `skip_header=1, drop_footer=1` has 2 data rows, not 3. -/
theorem excel_five_rows_not_three :
    (excel
        [⟨"Sheet1",
          [[some "junk", none],
            [some "Company", some "Date"],
            [some "Acme", some "2020-01-01"],
            [some "Beta", some "2020-02-02"],
            [some "Total: 2", none]],
          [[], [], [], [], []]⟩]
        [] (some 1) (some 1) none).map (fun d => d.rows.length)
      ≠ .ok 3 := by
  decide

/-- C9 is the code's intent but not its behaviour: `excel` with `link_col`
does add the synthetic `<column> Link` column, but because the source calls
`ws.cell(row=row_index, col=col)` — openpyxl's `cell` has no `col` keyword —
every lookup raises `TypeError`, the blanket `except` catches it, and every
link value is `''`.  Here the worksheet's cell at row 2, column 1 has
hyperlink target `http://example.com/acme`, yet the extracted `Company Link`
values are both `""`. -/
theorem excel_link_col_always_empty :
    excel
        [⟨"Sheet1",
          [[some "Company", some "Date"],
            [some "Acme", some "2020-01-01"],
            [some "Beta", some "2020-02-02"]],
          [[none, none],
            [some "http://example.com/acme", none],
            [none, none]]⟩]
        [0] none none none
      = .ok ⟨["Company", "Date", "Company Link"],
          [[some "Acme", some "2020-01-01", some ""],
            [some "Beta", some "2020-02-02", some ""]]⟩
    ∧ hyperlinkTarget
        ⟨"Sheet1",
          [[some "Company", some "Date"],
            [some "Acme", some "2020-01-01"],
            [some "Beta", some "2020-02-02"]],
          [[none, none],
            [some "http://example.com/acme", none],
            [none, none]]⟩ 2 1
      = some "http://example.com/acme"
    ∧ (some "" : Cell) ≠ some "http://example.com/acme" := by
  refine ⟨by decide, by decide, by decide⟩

/-! ### PDF extraction: `pdf` (src/modules/datatodf.py, lines 104–193)

`camelot.read_pdf` is the black box: its output — one rectangular grid of
string cells per detected table, each with its column count — is the input
of the embedded function.  Defaults mirror the Python signature and the
built-in kwargs (`flavor='lattice'`): `header_on_all_pages=True`,
`header_row=0`, `first_page_header=0`, `column_names=None`,
`col_delimiter=None`. -/

structure PTable where
  ncols : Nat
  rows : List (List String)
deriving Repr, DecidableEq

structure SFrame where
  cols : List String
  rows : List (List String)
deriving Repr, DecidableEq

/-- The extraction result together with the shape-mismatch warnings logged:
one `(n_cols_current, n_cols_expected)` pair per dropped table. -/
structure PdfOut where
  df : SFrame
  warnings : List (Nat × Nat)
deriving Repr, DecidableEq

/-- `df.drop(list(range(0, k)))` on a `RangeIndex` frame: `KeyError` when a
label is missing. -/
def pyDropFirstLabels (k : Nat) (rows : List (List String)) :
    Except String (List (List String)) :=
  if k ≤ rows.length then .ok (rows.drop k) else .error "KeyError"

/-- `df.iloc[i]`. -/
def pyIloc (rows : List (List String)) (i : Nat) : Except String (List String) :=
  if h : i < rows.length then .ok (rows.get ⟨i, h⟩) else .error "IndexError"

/-- Python list slice assignment `base[idx:idx+len(parts)] = parts`. -/
def pySpliceAssign (base : List String) (idx : Nat) (parts : List String) :
    List String :=
  base.take idx ++ parts ++ base.drop (idx + parts.length)

/-- The loop body for the tables after the first: keep a table when its
column count matches the expectation (or exceeds it under the `stream`
flavour, trimming the rightmost columns), dropping the repeated header row;
otherwise log a shape-mismatch warning and drop the whole table. -/
def pdfRest (nExp : Nat) (hAll : Bool) (headerRow : Nat) (flavor : String) :
    List PTable → Except String (List (List String) × List (Nat × Nat))
  | [] => .ok ([], [])
  | t :: ts => do
      let nc := t.ncols
      if (nc = nExp) ∨ (nc > nExp ∧ flavor = "stream") then do
        let rows0 := if nc > nExp ∧ flavor = "stream"
          then t.rows.map (fun r => r.take nExp) else t.rows
        let rows1 ← if hAll then pyDropFirstLabels (headerRow + 1) rows0
          else .ok rows0
        let (fs, warns) ← pdfRest nExp hAll headerRow flavor ts
        .ok (rows1 ++ fs, warns)
      else do
        let (fs, warns) ← pdfRest nExp hAll headerRow flavor ts
        .ok (fs, (nc, nExp) :: warns)

/-- `pdf` (src/modules/datatodf.py).  The first table fixes the column names
(read from row `header_row + first_page_header`, whitespace-collapsed) and
the expected column count; `df.columns = columns` needs as many names as
columns (`ValueError` otherwise); the first table and every later matching
table contribute their rows below the header; `pd.concat` of no frames
raises the `ValueError` the source catches, returning the empty frame. -/
def pdf (tables : List PTable) (hAll : Bool) (headerRow fph : Nat)
    (columnNames : Option (List String)) (colDelim : Option String)
    (flavor : String) : Except String PdfOut :=
  match tables with
  | [] => .ok ⟨⟨[], []⟩, []⟩
  | t0 :: rest => do
      let n0 := t0.ncols
      match columnNames with
      | some cn =>
          if n0 = cn.length then do
            let frame0 ← pyDropFirstLabels (headerRow + fph + 1) t0.rows
            let (fs, warns) ← pdfRest cn.length hAll headerRow flavor rest
            .ok ⟨⟨cn, frame0 ++ fs⟩, warns⟩
          else
            -- logging.error: column_list does not match; return df_all
            .ok ⟨⟨[], []⟩, []⟩
      | none => do
          let cnRow ← pyIloc t0.rows (headerRow + fph)
          let columnsRaw ← match colDelim with
            | none => .ok cnRow
            | some d =>
                match (cnRow.enum.filter (fun ic => ic.2 ≠ "")).head? with
                | none => .error "IndexError"
                | some (idx, cstr) =>
                    .ok (pySpliceAssign (List.replicate n0 "") idx
                      (cstr.splitOn d))
          let columns := columnsRaw.map whitespace_to_singlespace
          if columns.length = n0 then do
            let frame0 ← pyDropFirstLabels (headerRow + fph + 1) t0.rows
            let (fs, warns) ← pdfRest n0 hAll headerRow flavor rest
            .ok ⟨⟨columns, frame0 ++ fs⟩, warns⟩
          else .error "ValueError"

theorem except_bind_ok {ε α β : Type _} (a : α) (f : α → Except ε β) :
    (Except.ok a >>= f : Except ε β) = f a := rfl

theorem pdfRest_lattice (nExp : Nat) : ∀ (rest : List PTable),
    (∀ t ∈ rest, t.rows ≠ []) →
    pdfRest nExp true 0 "lattice" rest
      = .ok ((rest.filter (fun t => t.ncols == nExp)).flatMap
               (fun t => t.rows.tail),
             (rest.filter (fun t => !(t.ncols == nExp))).map
               (fun t => (t.ncols, nExp)))
  | [], _ => rfl
  | t :: ts, hr => by
      have ht : t.rows ≠ [] := hr t (List.mem_cons_self t ts)
      have hts : ∀ x ∈ ts, x.rows ≠ [] :=
        fun x hx => hr x (List.mem_cons_of_mem t hx)
      have ih := pdfRest_lattice nExp ts hts
      have hlen : 1 ≤ t.rows.length := by
        cases hrows : t.rows with
        | nil => exact absurd hrows ht
        | cons a l => simp
      by_cases hnc : t.ncols = nExp
      · have hcond : (t.ncols = nExp ∨ (t.ncols > nExp ∧ "lattice" = "stream")) :=
          Or.inl hnc
        have hnotgt : ¬(t.ncols > nExp ∧ "lattice" = "stream") := by
          intro h
          exact absurd h.2 (by decide)
        simp only [pdfRest, if_pos hcond, if_neg hnotgt, pyDropFirstLabels,
          ih, List.filter_cons, hnc]
        simp [hlen, except_bind_ok, List.drop_one]
      · have hcond : ¬(t.ncols = nExp ∨ (t.ncols > nExp ∧ "lattice" = "stream")) := by
          rintro (h | h)
          · exact hnc h
          · exact absurd h.2 (by decide)
        simp only [pdfRest, if_neg hcond, ih, List.filter_cons]
        have hbeq : (t.ncols == nExp) = false := by
          simpa using hnc
        simp [hbeq, except_bind_ok]

/-- C5: with default parameters (`lattice` flavour) the first table's header
row fixes the expected column count and the column names; the result keeps
the first table's data rows followed by the data rows of exactly those later
tables whose column count matches, while each mismatching table is dropped
whole with one logged shape warning `(got, expected)` — and the function
returns normally rather than raising. -/
theorem pdf_first_table_fixes_schema (t0 : PTable) (rest : List PTable)
    (h0 : t0.rows ≠ [])
    (hw : (t0.rows.headD []).length = t0.ncols)
    (hr : ∀ t ∈ rest, t.rows ≠ []) :
    pdf (t0 :: rest) true 0 0 none none "lattice"
      = .ok ⟨⟨(t0.rows.headD []).map whitespace_to_singlespace,
              t0.rows.tail
                ++ (rest.filter (fun t => t.ncols == t0.ncols)).flatMap
                     (fun t => t.rows.tail)⟩,
             (rest.filter (fun t => !(t.ncols == t0.ncols))).map
               (fun t => (t.ncols, t0.ncols))⟩ := by
  cases hrows : t0.rows with
  | nil => exact absurd hrows h0
  | cons r0 rs =>
      have hw' : r0.length = t0.ncols := by
        rw [hrows] at hw
        simpa using hw
      have h1 : pyIloc t0.rows 0 = .ok r0 := by
        rw [hrows]
        simp [pyIloc]
      have h2 : pyDropFirstLabels 1 t0.rows = .ok rs := by
        rw [hrows]
        simp [pyDropFirstLabels, List.drop_one]
      have h3 := pdfRest_lattice t0.ncols rest hr
      simp only [pdf, h1, h2, h3, except_bind_ok]
      rw [if_pos (by simp [hw'])]
      simp [hrows, except_bind_ok]

theorem pdf_first_table_fixes_schema_witness :
    pdf [⟨2, [["Date", "Company"], ["2020-01-01", "Acme"]]⟩,
         ⟨3, [["x", "y", "z"], ["1", "2", "3"]]⟩] true 0 0 none none "lattice"
      = .ok ⟨⟨["Date", "Company"], [["2020-01-01", "Acme"]]⟩, [(3, 2)]⟩ := by
  have h := pdf_first_table_fixes_schema
    ⟨2, [["Date", "Company"], ["2020-01-01", "Acme"]]⟩
    [⟨3, [["x", "y", "z"], ["1", "2", "3"]]⟩]
    (by decide) (by decide) (by decide)
  exact h.trans (by decide)

/-! ### Tabular-HTML extraction: `html` and `html_pandas`
(src/modules/datatodf.py, lines 196–300)

The lxml layer is the black box: the parsed document is the list of table
elements matched by the xpath selector, each carrying the text of its header
cells (`.//th`) and its rows (`.//body/tr`, falling back to `.//tr`), a row
carrying the text of its `td` cells and the `@href` targets found under it.
`html`'s `use_pandas=True` branch simply delegates to `html_pandas`, which
is embedded separately over the outcome of `pd.read_html` (either the list
of parsed frames or the caught `XMLSyntaxError`/`ValueError`). -/

inductive PyVal where
  | str (s : String)
  | strList (l : List String)
deriving Repr, DecidableEq

structure HRow where
  tds : List String
  hrefs : List String
deriving Repr, DecidableEq

structure HTable where
  ths : List String
  trs : List HRow
deriving Repr, DecidableEq

/-- One iteration of `html`'s table loop: empty tables are logged and
skipped; `drop_first_row` pops the first row; without `<th>` cells the first
remaining row provides the column names; every remaining row is zipped
against the column names by position into a Python dict; with `link_col`
set, the row's first `@href` becomes `Notice Link` (resolved against the
base URL) and any further `@href`s become `Updated Notices`. -/
def htmlProcessTable (urljoin : String → String → String) (baseUrl : String)
    (linkCol : Option Nat) (dropFirstRow : Bool) (t : HTable) :
    List (List (String × PyVal)) :=
  if t.trs.isEmpty then []
  else
    let rows := if dropFirstRow then t.trs.tail else t.trs
    let pair := if t.ths.isEmpty ∧ ¬ rows.isEmpty then
        ((rows.headD ⟨[], []⟩).tds, rows.tail)
      else (t.ths, rows)
    pair.2.map (fun r =>
      let fields := pyDictOfPairs ((pair.1.zip r.tds).map
        (fun kv => (kv.1, PyVal.str kv.2)))
      match linkCol with
      | none => fields
      | some _ =>
          match r.hrefs with
          | [] => fields
          | h :: hs =>
              let fields2 := pyDictUpdate fields "Notice Link"
                (PyVal.str (urljoin baseUrl h))
              if hs.isEmpty then fields2
              else pyDictUpdate fields2 "Updated Notices" (PyVal.strList hs))

/-- `html` (lxml path, `use_pandas=False`): the row dicts appended to
`df_all`, one per data row across all matched tables, in order. -/
def html (urljoin : String → String → String) (baseUrl : String)
    (linkCol : Option Nat) (dropFirstRow : Bool) (tables : List HTable) :
    List (List (String × PyVal)) :=
  tables.flatMap (htmlProcessTable urljoin baseUrl linkCol dropFirstRow)

/-- The column names of the frame `df_all.append(fields, ignore_index=True)`
builds: the record keys in first-appearance order. -/
def htmlColumns (records : List (List (String × PyVal))) : List String :=
  dedupFirstAux [] (records.flatMap pyDictKeys)

/-- `html_pandas`: over the outcome of `pd.read_html` — a caught parse
error yields the empty frame; several frames are concatenated; one frame is
returned as is; none (unreachable, `read_html` raises instead) yields the
empty frame. -/
def html_pandas (readResult : Except String (List DF)) : DF :=
  match readResult with
  | .error _ => ⟨[], []⟩
  | .ok dfs =>
      if 1 < dfs.length then dfs.foldl pyAppend ⟨[], []⟩
      else
        match dfs with
        | [d] => d
        | _ => ⟨[], []⟩

/-- C7: with default parameters, a table without `<th>` cells uses its first
data row as the column names, and each subsequent row is zipped against
those names by position. -/
theorem html_headerless_first_row_headers (uj : String → String → String)
    (b : String) (t : HTable) (r0 : HRow) (rest : List HRow)
    (hth : t.ths = []) (htr : t.trs = r0 :: rest) :
    html uj b none false [t]
      = rest.map (fun r => pyDictOfPairs ((r0.tds.zip r.tds).map
          (fun kv => (kv.1, PyVal.str kv.2)))) := by
  rcases t with ⟨ths, trs⟩
  simp only at hth htr
  subst hth
  subst htr
  simp [html, htmlProcessTable]

theorem html_headerless_first_row_headers_witness :
    html (fun _ s => s) "" none false
        [⟨[], [⟨["A", "B"], []⟩, ⟨["1", "2"], []⟩]⟩]
      = [[("A", PyVal.str "1"), ("B", PyVal.str "2")]]
    ∧ htmlColumns
        (html (fun _ s => s) "" none false
          [⟨[], [⟨["A", "B"], []⟩, ⟨["1", "2"], []⟩]⟩])
      = ["A", "B"] := by
  have h := html_headerless_first_row_headers (fun _ s => s) ""
    ⟨[], [⟨["A", "B"], []⟩, ⟨["1", "2"], []⟩]⟩
    ⟨["A", "B"], []⟩ [⟨["1", "2"], []⟩] rfl rfl
  exact ⟨h.trans rfl, by rw [h]; rfl⟩

/-- C8: when no tabular structure is found, extraction logs and returns an
empty Raw Table — `html` with no matched tables, or only row-less tables,
yields no records; `html_pandas` yields the empty frame on a caught parse
failure or an empty frame list.  (Both embedded functions are total, the
shape of "never raises to the caller".) -/
theorem html_no_table_empty_result :
    (∀ (uj : String → String → String) (b : String) (lc : Option Nat)
        (dfr : Bool), html uj b lc dfr [] = [])
    ∧ (∀ (uj : String → String → String) (b : String) (lc : Option Nat)
        (dfr : Bool) (ts : List HTable), (∀ t ∈ ts, t.trs = []) →
          html uj b lc dfr ts = [])
    ∧ (∀ e : String, html_pandas (.error e) = ⟨[], []⟩)
    ∧ html_pandas (.ok []) = ⟨[], []⟩ := by
  refine ⟨fun _ _ _ _ => rfl, ?_, fun _ => rfl, rfl⟩
  intro uj b lc dfr ts hts
  induction ts with
  | nil => rfl
  | cons t ts ih =>
      have ht : t.trs = [] := hts t (List.mem_cons_self t ts)
      have hts' : ∀ x ∈ ts, x.trs = [] :=
        fun x hx => hts x (List.mem_cons_of_mem t hx)
      simp [html, htmlProcessTable, ht] at ih ⊢
      exact ih hts'

theorem html_no_table_empty_result_witness :
    html (fun _ s => s) "" none false [⟨["X"], []⟩] = [] :=
  html_no_table_empty_result.2.1 (fun _ s => s) "" none false
    [⟨["X"], []⟩] (by decide)

end CdfWarn
